import Mathlib

/-!
Shallow embedding of the level-calculation core of HypixelTwitchBot
(`src/calculations.py` and `src/commands/overflow_skills.py`).

Python floats are modelled by `ℚ` (all arithmetic in these functions is
addition, subtraction and division of values derived from integer tables,
so the rational model is exact except for float rounding, which no claim
depends on).  `float('inf')` is modelled by `none` in an `Option ℚ` result.
Python dicts with `.get` are modelled by functions into `Option`.
-/

/-- `utils.LevelingData` (a `TypedDict`): the five leveling tables.
`level_caps` and `slayer_xp` are dicts, modelled as partial maps;
a table that failed to load is the empty list / empty map. -/
structure LevelingData where
  xp_table : List ℚ
  level_caps : String → Option ℕ
  catacombs_xp : List ℚ
  hotm_brackets : List ℚ
  slayer_xp : String → Option (List ℚ)

/-- The parts of a Hypixel member dict that `calculate_skill_level` reads:
`pets_data.pet_care.pet_types_sacrificed` (a list of pet-type names) and
`jacobs_contest.perks.farming_level_cap` (defaulting to 0). -/
structure MemberData where
  pet_types_sacrificed : List String
  farming_level_cap : ℕ

/-- The common threshold-walk loop shared (textually) by
`calculate_skill_level`, `calculate_hotm_level`, `calculate_dungeon_level`
and `calculate_class_level` in `src/calculations.py`:

```
total_xp_required = 0
level = 0
for i, required_xp in enumerate(xp_table):
    current_level_xp = total_xp_required          # cumulative sum so far = acc
    total_xp_required += required_xp
    if xp >= total_xp_required:
        level += 1
    else:
        if required_xp > 0:
            return level + (xp - current_level_xp) / required_xp
        else:                                      # division-by-zero fallback
            return float(level)
return float(level)
```

The `i >= bound: break` guard of the skill/dungeon variants is modelled by
passing `List.take bound table`; `calculate_skill_level`'s `min(_, cap)` on
each of these return values is applied by the caller to the result (each
return path produces exactly one of these values, so clamping the result is
the same as clamping each return). -/
def levelWalk (xp : ℚ) : List ℚ → ℚ → ℕ → ℚ
  | [], _, level => (level : ℚ)
  | required_xp :: rest, acc, level =>
    let total := acc + required_xp
    if total ≤ xp then
      levelWalk xp rest total (level + 1)
    else if 0 < required_xp then
      (level : ℚ) + (xp - acc) / required_xp
    else
      (level : ℚ)

/-- Instrumentation of `levelWalk`: `true` exactly when the walk returns
through the division-by-zero fallback branch (`else: return float(level)`
guarded by `required_xp <= 0`). -/
def levelWalkFallback (xp : ℚ) : List ℚ → ℚ → Bool
  | [], _ => false
  | required_xp :: rest, acc =>
    let total := acc + required_xp
    if total ≤ xp then
      levelWalkFallback xp rest total
    else
      decide (required_xp ≤ 0)

/-- The effective max level computed at the top of `calculate_skill_level`:
base cap `level_caps.get(skill_name, 50)`; for `'taming'` with member data,
`50 + min(len(pet_types_sacrificed), 10)`; for `'farming'` with member data,
`50 + farming_level_cap`. -/
def effectiveMaxLevel (lv : LevelingData) (skill_name : String)
    (member_data : Option MemberData) : ℕ :=
  let base_max_level := (lv.level_caps skill_name).getD 50
  match member_data with
  | none => base_max_level
  | some m =>
    if skill_name = "taming" then 50 + min m.pet_types_sacrificed.length 10
    else if skill_name = "farming" then 50 + m.farming_level_cap
    else base_max_level

/-- `calculations.calculate_skill_level`.  Empty table → `0.0`; if
`xp >= sum(xp_table[:effective_max_level])` return the effective max level;
otherwise walk the first `effective_max_level` entries, clamping the result
to the effective max level (the source applies `min` on each return path). -/
def calculate_skill_level (lv : LevelingData) (xp : ℚ) (skill_name : String)
    (member_data : Option MemberData) : ℚ :=
  if lv.xp_table = [] then 0
  else
    let eff := effectiveMaxLevel lv skill_name member_data
    let total_xp_for_max := (lv.xp_table.take eff).sum
    if total_xp_for_max ≤ xp then (eff : ℚ)
    else min (levelWalk xp (lv.xp_table.take eff) 0 0) (eff : ℚ)

/-- `calculations.calculate_hotm_level`.  Missing or empty `hotm_brackets`
→ `0.0`; max level is the bracket-list length; otherwise the same walk over
the whole bracket list (no clamp on the walk's returns in the source). -/
def calculate_hotm_level (lv : LevelingData) (xp : ℚ) : ℚ :=
  if lv.hotm_brackets = [] then 0
  else
    let max_level := lv.hotm_brackets.length
    let total_xp_for_max := lv.hotm_brackets.sum
    if total_xp_for_max ≤ xp then (max_level : ℚ)
    else levelWalk xp lv.hotm_brackets 0 0

/-- `calculations.calculate_dungeon_level`.  Empty table → `0.0`; max level
is the constant 100; `total_xp_for_max` sums the ENTIRE table (not only the
first 100 entries); the walk breaks at index 100 (`List.take 100`). -/
def calculate_dungeon_level (lv : LevelingData) (xp : ℚ) : ℚ :=
  if lv.catacombs_xp = [] then 0
  else
    let max_level : ℕ := 100
    let total_xp_for_max := lv.catacombs_xp.sum
    if total_xp_for_max ≤ xp then (max_level : ℚ)
    else levelWalk xp (lv.catacombs_xp.take max_level) 0 0

/-- Variant of `calculate_dungeon_level` following the spec's words for §9:
`total_xp_for_max` sums only the FIRST 100 entries of the table.  Used to
compare with the source's whole-table summation (claim C7). -/
def calculate_dungeon_level_first100 (lv : LevelingData) (xp : ℚ) : ℚ :=
  if lv.catacombs_xp = [] then 0
  else
    let max_level : ℕ := 100
    let total_xp_for_max := (lv.catacombs_xp.take max_level).sum
    if total_xp_for_max ≤ xp then (max_level : ℚ)
    else levelWalk xp (lv.catacombs_xp.take max_level) 0 0

/-- `calculations.calculate_class_level`.  Empty table → `0.0`; uses only
the first 50 catacombs entries (`xp_table = catacombs_xp[:50]`), max class
level 50. -/
def calculate_class_level (lv : LevelingData) (xp : ℚ) : ℚ :=
  if lv.catacombs_xp = [] then 0
  else
    let max_class_level : ℕ := 50
    let xp_table := lv.catacombs_xp.take max_class_level
    let total_xp_for_max_class_level := xp_table.sum
    if total_xp_for_max_class_level ≤ xp then (max_class_level : ℚ)
    else levelWalk xp xp_table 0 0

/-- The loop of `calculate_slayer_level`:
`for i in range(len(thresholds)): if xp >= thresholds[i]: level = i + 1
else: break`.  Because the loop runs in index order and stops at the first
unmet threshold, `level = i + 1` coincides with incrementing an accumulator. -/
def slayerLoop (xp : ℚ) : List ℚ → ℕ → ℕ
  | [], level => level
  | t :: rest, level => if t ≤ xp then slayerLoop xp rest (level + 1) else level

/-- `calculations.calculate_slayer_level`.  Missing boss key → `0`;
otherwise the first-unmet-threshold loop above. -/
def calculate_slayer_level (lv : LevelingData) (xp : ℚ) (boss_key : String) : ℕ :=
  match lv.slayer_xp boss_key with
  | none => 0
  | some thresholds => slayerLoop xp thresholds 0

/-- `calculations._get_xp_for_target_level`.  Empty catacombs table →
`float('inf')`, modelled as `none`.  `target_level` is a Python int (may be
≤ 0, hence `ℤ`): index `target_level - 1 < 0` → `0.0`; index beyond the
table → sum of the whole table; otherwise `sum(xp_table[:index + 1])`. -/
def getXpForTargetLevel (lv : LevelingData) (target_level : ℤ) : Option ℚ :=
  if lv.catacombs_xp = [] then none
  else
    let target_level_index := target_level - 1
    if target_level_index < 0 then some 0
    else if (lv.catacombs_xp.length : ℤ) ≤ target_level_index then
      some lv.catacombs_xp.sum
    else
      some ((lv.catacombs_xp.take (target_level_index.toNat + 1)).sum)

/-! ## `commands/overflow_skills.py` -/

/-- State of the overflow loop of `XPProvider.xp_generator` at the top of
`while True:` — the value about to be yielded, `current_level`, and
`current_slope`. -/
structure GenState where
  xp : ℚ
  level : ℕ
  slope : ℚ

/-- One iteration of the `while True:` loop body after the `yield`:
`current_level += 1; current_xp += current_slope;
if current_level % 10 == 0: current_slope *= 2` (the increment of
`current_xp` uses the slope BEFORE the doubling check). -/
def genNext (s : GenState) : GenState :=
  let level := s.level + 1
  let xp := s.xp + s.slope
  let slope := if level % 10 = 0 then s.slope * 2 else s.slope
  ⟨xp, level, slope⟩

/-- The loop state on first entering `while True:`:
`current_xp = levels[-1]; current_slope = (levels[-1] - levels[-2]) * 2;
current_level = len(levels); current_xp += current_slope`.
(`getD _ 0` stands for the list indexing; callers guard `2 ≤ length`, the
case in which the Python indexing does not raise.) -/
def genStart (t : List ℚ) : GenState :=
  let last := t.getD (t.length - 1) 0
  let second_last := t.getD (t.length - 2) 0
  let slope := (last - second_last) * 2
  ⟨last + slope, t.length, slope⟩

/-- The sequence yielded by the `inner()` generator of
`XPProvider.xp_generator`, as a function from term index to
`Option ℚ`: term 0 is the literal `yield 0`; terms `1..len` replay the
table (`yield from self.levels`); past the table, `levels[-1]`/`levels[-2]`
raise `IndexError` when the table has fewer than two entries (`none`),
otherwise the `while True:` loop yields the `GenState` orbit. -/
def xpSeq (t : List ℚ) : ℕ → Option ℚ
  | 0 => some 0
  | n + 1 =>
    if h : n < t.length then some (t.get ⟨n, h⟩)
    else if t.length < 2 then none
    else some ((genNext^[n - t.length] (genStart t)).xp)

/-- `overflow_skills.XPProvider`: a delta table and an optional bound. -/
structure XPProvider where
  levels : List ℚ
  max_level : Option ℕ

/-- `XPProvider.xp_generator`, modelled as the function from term index to
yielded value of the iterator it returns.  The source line is

```
return itertools.islice(inner(), self.max_level) if self.max_level is None else inner()
```

so when `max_level is None` the result is `islice(inner(), None)`, which is
the unsliced `inner()`, and when `max_level` is an integer the result is
the plain `inner()` — in BOTH cases the full unbounded sequence (the
condition is inverted, so the slice is only ever applied with stop=`None`). -/
def XPProvider.xp_generator (p : XPProvider) : ℕ → Option ℚ :=
  match p.max_level with
  | none => xpSeq p.levels
  | some _ => xpSeq p.levels

/-- Result of the per-skill loop of `process_overflow_skill_command`:
`ok` carries the computed decimal level, `err` marks the generator raising
`IndexError`, `out` is a model artefact for fuel exhaustion (the Python
loop has no bound; every theorem below supplies enough fuel). -/
inductive WalkRes where
  | ok (level : ℚ)
  | err
  | out
deriving DecidableEq

/-- The consumption loop of `process_overflow_skill_command`:

```
achieved_level = 0
required_next_xp = 0
for level, xp in enumerate(provider.xp_generator()):
    if current_xp < xp:
        required_next_xp = xp
        break
    achieved_level = level
    current_xp -= xp
decimal_level = achieved_level + (current_xp / required_next_xp if required_next_xp > 0 else 0)
```

`idx` is the `enumerate` counter, `achieved` the last index whose term was
met.  A `none` term is the generator raising (`err`). -/
def overflowWalkAux (seq : ℕ → Option ℚ) : ℕ → ℚ → ℕ → ℕ → WalkRes
  | 0, _, _, _ => .out
  | fuel + 1, current_xp, idx, achieved =>
    match seq idx with
    | none => .err
    | some xp =>
      if current_xp < xp then
        .ok ((achieved : ℚ) + (if 0 < xp then current_xp / xp else 0))
      else
        overflowWalkAux seq fuel (current_xp - xp) (idx + 1) idx

/-- The overflow-level walk of `process_overflow_skill_command` for one
skill: consume `XPProvider(levels, None).xp_generator()` starting from the
player's total XP. -/
def overflowWalk (levels : List ℚ) (total_xp : ℚ) (fuel : ℕ) : WalkRes :=
  overflowWalkAux (XPProvider.xp_generator ⟨levels, none⟩) fuel total_xp 0 0

/-! ## Theorems -/

/-- C1 (counterexample).  On `xp_table = [100, 200, 300]` with no caps
override, skill `"mining"`, no member data, `calculate_skill_level` does
NOT return `1.5` at `xp = 150` (it interpolates `1 + 50/200 = 1.25`), and
does NOT return `3.0` at `xp = 600` (the early max-level return fires,
since `600 = sum(xp_table[:50])`, and yields the effective cap `50.0`). -/
theorem skill_level_concrete_cx :
    calculate_skill_level ⟨[100, 200, 300], fun _ => none, [], [], fun _ => none⟩
      150 "mining" none ≠ 3 / 2 ∧
    calculate_skill_level ⟨[100, 200, 300], fun _ => none, [], [], fun _ => none⟩
      600 "mining" none ≠ 3 := by
  constructor <;> norm_num [calculate_skill_level, effectiveMaxLevel, levelWalk, List.take_of_length_le, min_def, List.cons_ne_nil]

/-- C1 (amended).  On `xp_table = [100, 200, 300]` with no caps override,
skill `"mining"`, no member data: `xp=0 → 0.0`, `xp=100 → 1.0`,
`xp=150 → 1.25` (one level done plus `50/200` of the next), and
`xp=600 → 50.0`: `600` equals `sum(xp_table[:50])`, the total for the
effective cap, so the early return yields the cap itself, not the table
length `3`. -/
theorem skill_level_concrete_values :
    calculate_skill_level ⟨[100, 200, 300], fun _ => none, [], [], fun _ => none⟩
      0 "mining" none = 0 ∧
    calculate_skill_level ⟨[100, 200, 300], fun _ => none, [], [], fun _ => none⟩
      100 "mining" none = 1 ∧
    calculate_skill_level ⟨[100, 200, 300], fun _ => none, [], [], fun _ => none⟩
      150 "mining" none = 5 / 4 ∧
    calculate_skill_level ⟨[100, 200, 300], fun _ => none, [], [], fun _ => none⟩
      600 "mining" none = 50 := by
  refine ⟨?_, ?_, ?_, ?_⟩ <;> norm_num [calculate_skill_level, effectiveMaxLevel, levelWalk, List.take_of_length_le, min_def, List.cons_ne_nil]

/-- C3 (code bug).  With `max_level = 1` on table `[100, 200]`, the
iterator returned by `xp_generator` still yields terms at indices 1, 2, 3
(values `100`, `200`, `400`): the ternary on the return line applies
`islice` exactly when `max_level is None` (where it is a no-op) and returns
the unsliced `inner()` when `max_level` is an integer, so the bound is
never applied and the sequence is unbounded instead of stopping after
`max_level` terms. -/
theorem xp_generator_ignores_max_level :
    XPProvider.xp_generator ⟨[100, 200], some 1⟩ 1 = some 100 ∧
    XPProvider.xp_generator ⟨[100, 200], some 1⟩ 2 = some 200 ∧
    XPProvider.xp_generator ⟨[100, 200], some 1⟩ 3 = some 400 ∧
    XPProvider.xp_generator ⟨[100, 200], some 0⟩ 1 = some 100 := by
  refine ⟨?_, ?_, ?_, ?_⟩ <;>
    norm_num [XPProvider.xp_generator, xpSeq, genNext, genStart, Function.iterate_succ_apply]

/-- C8 (counterexample).  On an empty catacombs table,
`_get_xp_for_target_level` returns `float('inf')` (modelled `none`), not
the sum of the entire table (`0`): the claim's "including the empty table"
fails. -/
theorem get_xp_for_target_level_empty_cx :
    getXpForTargetLevel ⟨[], fun _ => none, [], [], fun _ => none⟩ 1 = none ∧
    getXpForTargetLevel ⟨[], fun _ => none, [], [], fun _ => none⟩ 1 ≠ some 0 := by
  constructor <;> simp [getXpForTargetLevel]

/-- C8 (amended).  For every NON-EMPTY catacombs table and 1-based target
level: when the target is within the table length the result is the sum of
`catacombs_xp[0 : target_level]`, and when it exceeds the table length the
result is the sum of the entire table; the empty table instead yields
`float('inf')` (`none`), shown in `get_xp_for_target_level_empty_cx`. -/
theorem get_xp_for_target_level_spec (lv : LevelingData) (target_level : ℤ)
    (hne : lv.catacombs_xp ≠ []) (h1 : 1 ≤ target_level) :
    (target_level ≤ (lv.catacombs_xp.length : ℤ) →
      getXpForTargetLevel lv target_level =
        some ((lv.catacombs_xp.take target_level.toNat).sum)) ∧
    ((lv.catacombs_xp.length : ℤ) < target_level →
      getXpForTargetLevel lv target_level = some lv.catacombs_xp.sum) := by
  unfold getXpForTargetLevel
  rw [if_neg hne]
  constructor
  · intro hle
    rw [if_neg (by omega), if_neg (by omega)]
    have h2 : (target_level - 1).toNat + 1 = target_level.toNat := by omega
    rw [h2]
  · intro hgt
    rw [if_neg (by omega), if_pos (by omega)]

/-- Witness for `get_xp_for_target_level_spec`: on table `[10, 20, 30]`,
target level 2 sums the first two entries and target level 7 sums the
whole table. -/
theorem get_xp_for_target_level_spec_witness :
    getXpForTargetLevel ⟨[], fun _ => none, [10, 20, 30], [], fun _ => none⟩ 2 =
      some ((([10, 20, 30] : List ℚ).take (2 : ℤ).toNat).sum) ∧
    getXpForTargetLevel ⟨[], fun _ => none, [10, 20, 30], [], fun _ => none⟩ 7 =
      some (([10, 20, 30] : List ℚ).sum) := by
  have h2 := get_xp_for_target_level_spec
    ⟨[], fun _ => none, [10, 20, 30], [], fun _ => none⟩ 2 (by simp) (by norm_num)
  have h7 := get_xp_for_target_level_spec
    ⟨[], fun _ => none, [10, 20, 30], [], fun _ => none⟩ 7 (by simp) (by norm_num)
  exact ⟨h2.1 (by norm_num), h7.2 (by norm_num)⟩

/-- C2 (counterexample).  The overflow-level walk of
`process_overflow_skill_command` on an EMPTY `xp_table` does not return
level 0: after the generator's literal `yield 0` is consumed, the next
`next()` executes `current_xp = self.levels[-1]` on the empty list and
raises `IndexError` (modelled `WalkRes.err`). -/
theorem overflow_walk_empty_cx :
    overflowWalk [] 0 3 = WalkRes.err ∧ overflowWalk [] 0 3 ≠ WalkRes.ok 0 := by
  have h : overflowWalk [] 0 3 = WalkRes.err := by
    simp [overflowWalk, overflowWalkAux, XPProvider.xp_generator, xpSeq]
  exact ⟨h, by rw [h]; exact fun hc => WalkRes.noConfusion hc⟩

/-- C2 (amended).  The five calculation functions of `calculations.py` all
return level 0 on an empty (or missing) table: `calculate_skill_level` with
empty `xp_table`, `calculate_dungeon_level`/`calculate_class_level` with
empty `catacombs_xp`, `calculate_hotm_level` with empty `hotm_brackets`,
and `calculate_slayer_level` with a missing boss key or an empty threshold
list.  The overflow-level walk driven by `XPProvider.xp_generator`,
however, RAISES (`WalkRes.err`) instead of returning 0 whenever it advances
past a table with fewer than two entries: on the empty table for every
`xp ≥ 0`, and on a one-entry table `[a]` for every `xp ≥ 0` with `a ≤ xp`. -/
theorem empty_table_degenerate (lv : LevelingData) (xp a : ℚ)
    (skill_name boss_key : String) (member_data : Option MemberData) :
    (lv.xp_table = [] → calculate_skill_level lv xp skill_name member_data = 0) ∧
    (lv.catacombs_xp = [] → calculate_dungeon_level lv xp = 0) ∧
    (lv.catacombs_xp = [] → calculate_class_level lv xp = 0) ∧
    (lv.hotm_brackets = [] → calculate_hotm_level lv xp = 0) ∧
    (lv.slayer_xp boss_key = none → calculate_slayer_level lv xp boss_key = 0) ∧
    (lv.slayer_xp boss_key = some [] → calculate_slayer_level lv xp boss_key = 0) ∧
    (0 ≤ xp → ∀ fuel, 2 ≤ fuel → overflowWalk [] xp fuel = WalkRes.err) ∧
    (0 ≤ xp → a ≤ xp → ∀ fuel, 3 ≤ fuel → overflowWalk [a] xp fuel = WalkRes.err) := by
  refine ⟨fun h => ?_, fun h => ?_, fun h => ?_, fun h => ?_, fun h => ?_,
    fun h => ?_, ?_, ?_⟩
  · simp [calculate_skill_level, h]
  · simp [calculate_dungeon_level, h]
  · simp [calculate_class_level, h]
  · simp [calculate_hotm_level, h]
  · simp [calculate_slayer_level, h]
  · simp [calculate_slayer_level, h, slayerLoop]
  · intro hxp fuel hf
    match fuel, hf with
    | (f + 2), _ =>
      simp [overflowWalk, overflowWalkAux, XPProvider.xp_generator, xpSeq,
        not_lt.mpr hxp]
  · intro hxp ha fuel hf
    match fuel, hf with
    | (f + 3), _ =>
      have h0 : ¬ xp < 0 := not_lt.mpr hxp
      have h1 : ¬ xp - 0 < a := by simpa using not_lt.mpr ha
      simp [overflowWalk, overflowWalkAux, XPProvider.xp_generator, xpSeq,
        h0, h1, ha]

/-- Witness for `empty_table_degenerate` at wholly-empty leveling data,
`xp = 5`, one-entry overflow table `[3]`. -/
theorem empty_table_degenerate_witness :
    calculate_skill_level ⟨[], fun _ => none, [], [], fun _ => none⟩ 5 "mining" none = 0 ∧
    calculate_dungeon_level ⟨[], fun _ => none, [], [], fun _ => none⟩ 5 = 0 ∧
    calculate_class_level ⟨[], fun _ => none, [], [], fun _ => none⟩ 5 = 0 ∧
    calculate_hotm_level ⟨[], fun _ => none, [], [], fun _ => none⟩ 5 = 0 ∧
    calculate_slayer_level ⟨[], fun _ => none, [], [], fun _ => none⟩ 5 "zombie" = 0 ∧
    calculate_slayer_level ⟨[], fun _ => none, [], [], fun _ => some []⟩ 5 "zombie" = 0 ∧
    overflowWalk [] 5 2 = WalkRes.err ∧
    overflowWalk [3] 5 3 = WalkRes.err := by
  have h1 := empty_table_degenerate ⟨[], fun _ => none, [], [], fun _ => none⟩
    5 3 "mining" "zombie" none
  have h2 := empty_table_degenerate ⟨[], fun _ => none, [], [], fun _ => some []⟩
    5 3 "mining" "zombie" none
  exact ⟨h1.1 rfl, h1.2.1 rfl, h1.2.2.1 rfl, h1.2.2.2.1 rfl, h1.2.2.2.2.1 rfl,
    h2.2.2.2.2.2.1 rfl, h1.2.2.2.2.2.2.1 (by norm_num) 2 le_rfl,
    h1.2.2.2.2.2.2.2 (by norm_num) (by norm_num) 3 le_rfl⟩

/-- The slayer loop with starting accumulator `l` is the loop from 0
shifted by `l`. -/
theorem slayerLoop_shift (xp : ℚ) (ts : List ℚ) (l : ℕ) :
    slayerLoop xp ts l = l + slayerLoop xp ts 0 := by
  induction ts generalizing l with
  | nil => simp [slayerLoop]
  | cons t rest ih =>
    simp only [slayerLoop]
    by_cases h : t ≤ xp
    · rw [if_pos h, if_pos h, ih (l + 1), ih (0 + 1)]
      omega
    · rw [if_neg h, if_neg h]
      omega

/-- The slayer loop never exceeds the threshold-list length. -/
theorem slayerLoop_le_length (xp : ℚ) (ts : List ℚ) :
    slayerLoop xp ts 0 ≤ ts.length := by
  induction ts with
  | nil => simp [slayerLoop]
  | cons t rest ih =>
    simp only [slayerLoop, List.length_cons]
    by_cases h : t ≤ xp
    · rw [if_pos h, slayerLoop_shift]
      omega
    · rw [if_neg h]
      omega

/-- For a non-decreasing threshold list, the `k`-th (0-based) threshold is
met exactly when the slayer loop's result exceeds `k`. -/
theorem slayerLoop_get_iff (xp : ℚ) (ts : List ℚ) (hs : ts.Sorted (· ≤ ·))
    (k : ℕ) (hk : k < ts.length) :
    ts.get ⟨k, hk⟩ ≤ xp ↔ k < slayerLoop xp ts 0 := by
  induction ts generalizing k with
  | nil => simp at hk
  | cons t rest ih =>
    obtain ⟨hall, hrest⟩ := List.sorted_cons.mp hs
    simp only [slayerLoop]
    by_cases h : t ≤ xp
    · rw [if_pos h, slayerLoop_shift]
      cases k with
      | zero => simpa using h
      | succ j =>
        have hj : j < rest.length := by simpa using hk
        simp only [List.get_cons_succ]
        rw [ih hrest j hj]
        omega
    · rw [if_neg h]
      cases k with
      | zero => simpa using h
      | succ j =>
        have hj : j < rest.length := by simpa using hk
        simp only [List.get_cons_succ]
        constructor
        · intro hle
          exact absurd (le_trans (hall _ (List.get_mem rest _ _)) hle) h
        · omega

/-- C4.  For every non-decreasing cumulative threshold list registered
under a boss key, `calculate_slayer_level` returns the largest integer
level whose (1-based) threshold is met: the result is at most the list
length; a missing boss key gives 0; threshold `k` (0-based) is met iff the
level exceeds `k`; xp below the first threshold gives 0; for
`thresholds[k] <= xp < thresholds[k+1]` the level is `k + 1`; with strictly
increasing thresholds, `xp = thresholds[k]` gives exactly `k + 1`; and any
`xp >= thresholds[len - 1]` gives `len` (no extrapolation past the table).
The result is a `ℕ`, hence always a non-negative integer. -/
theorem slayer_level_spec (lv : LevelingData) (xp : ℚ) (boss_key : String)
    (thresholds : List ℚ) (hfind : lv.slayer_xp boss_key = some thresholds)
    (hs : thresholds.Sorted (· ≤ ·)) :
    calculate_slayer_level lv xp boss_key ≤ thresholds.length ∧
    (∀ lv2 : LevelingData, ∀ xp2 : ℚ, ∀ b2 : String,
      lv2.slayer_xp b2 = none → calculate_slayer_level lv2 xp2 b2 = 0) ∧
    (∀ k (hk : k < thresholds.length),
      thresholds.get ⟨k, hk⟩ ≤ xp ↔ k < calculate_slayer_level lv xp boss_key) ∧
    (∀ h0 : 0 < thresholds.length,
      xp < thresholds.get ⟨0, h0⟩ → calculate_slayer_level lv xp boss_key = 0) ∧
    (∀ k, ∀ hk1 : k + 1 < thresholds.length,
      thresholds.get ⟨k, by omega⟩ ≤ xp → xp < thresholds.get ⟨k + 1, hk1⟩ →
      calculate_slayer_level lv xp boss_key = k + 1) ∧
    (thresholds.Sorted (· < ·) →
      ∀ k, ∀ hk : k < thresholds.length, xp = thresholds.get ⟨k, hk⟩ →
      calculate_slayer_level lv xp boss_key = k + 1) ∧
    (∀ h0 : 0 < thresholds.length,
      thresholds.get ⟨thresholds.length - 1, by omega⟩ ≤ xp →
      calculate_slayer_level lv xp boss_key = thresholds.length) := by
  have hL : calculate_slayer_level lv xp boss_key = slayerLoop xp thresholds 0 := by
    simp [calculate_slayer_level, hfind]
  rw [hL]
  refine ⟨slayerLoop_le_length xp thresholds, ?_, ?_, ?_, ?_, ?_, ?_⟩
  · intro lv2 xp2 b2 hnone
    simp [calculate_slayer_level, hnone]
  · exact fun k hk => slayerLoop_get_iff xp thresholds hs k hk
  · intro h0 hlt
    have hnot : ¬ 0 < slayerLoop xp thresholds 0 := by
      rw [← slayerLoop_get_iff xp thresholds hs 0 h0]
      exact not_le.mpr hlt
    omega
  · intro k hk1 hle hlt
    have h1 : k < slayerLoop xp thresholds 0 :=
      (slayerLoop_get_iff xp thresholds hs k (by omega)).mp hle
    have h2 : ¬ k + 1 < slayerLoop xp thresholds 0 := by
      rw [← slayerLoop_get_iff xp thresholds hs (k + 1) hk1]
      exact not_le.mpr hlt
    omega
  · intro hstrict k hk hxp
    have h1 : k < slayerLoop xp thresholds 0 :=
      (slayerLoop_get_iff xp thresholds hs k hk).mp (le_of_eq hxp.symm)
    by_cases hk1 : k + 1 < thresholds.length
    · have hlt : thresholds.get ⟨k, hk⟩ < thresholds.get ⟨k + 1, hk1⟩ :=
        hstrict.rel_get_of_lt (by simp [Fin.lt_def])
      have h2 : ¬ k + 1 < slayerLoop xp thresholds 0 := by
        rw [← slayerLoop_get_iff xp thresholds hs (k + 1) hk1]
        exact not_le.mpr (hxp ▸ hlt)
      omega
    · have h2 := slayerLoop_le_length xp thresholds
      omega
  · intro h0 hlast
    have h1 : thresholds.length - 1 < slayerLoop xp thresholds 0 :=
      (slayerLoop_get_iff xp thresholds hs _ (by omega)).mp hlast
    have h2 := slayerLoop_le_length xp thresholds
    omega

/-- Witness for `slayer_level_spec`: boss `"zombie"` with thresholds
`[5, 15, 200]` and `xp = 15` (equal to the second threshold) is level 2. -/
theorem slayer_level_spec_witness :
    calculate_slayer_level
      ⟨[], fun _ => none, [], [], fun b => if b = "zombie" then some [5, 15, 200] else none⟩
      15 "zombie" = 2 := by
  have h := slayer_level_spec
    ⟨[], fun _ => none, [], [], fun b => if b = "zombie" then some [5, 15, 200] else none⟩
    15 "zombie" [5, 15, 200] (by simp) (by norm_num [List.sorted_cons])
  exact h.2.2.2.2.1 1 (by norm_num) (by show (15 : ℚ) ≤ 15; norm_num)
    (by show (15 : ℚ) < 200; norm_num)

/-- C10's invariant argument: if the XP is at least the cumulative sum
`acc` accumulated before the remaining entries, the walk never reaches the
division-by-zero fallback branch: a zero (or negative) entry keeps
`total <= xp` true and grants the level outright, and the `else` branch is
only ever entered with `required_xp > 0`. -/
theorem levelWalkFallback_eq_false (xp : ℚ) (t : List ℚ) (acc : ℚ) (h : acc ≤ xp) :
    levelWalkFallback xp t acc = false := by
  induction t generalizing acc with
  | nil => simp [levelWalkFallback]
  | cons r rest ih =>
    simp only [levelWalkFallback]
    by_cases hc : acc + r ≤ xp
    · rw [if_pos hc]
      exact ih _ hc
    · rw [if_neg hc]
      have hr : 0 < r := by
        by_contra hrn
        push_neg at hrn
        exact hc (le_trans (by linarith) h)
      simp [not_le.mpr hr]

/-- C10.  For every table and every `xp >= 0`, the division-by-zero
fallback branch is unreachable in each of the four walks exactly as they
are invoked by `calculate_skill_level` (first `effective_max_level`
entries of `xp_table`), `calculate_dungeon_level` (first 100 catacombs
entries), `calculate_class_level` (first 50 catacombs entries) and
`calculate_hotm_level` (all brackets). -/
theorem division_fallback_unreachable (lv : LevelingData) (xp : ℚ)
    (skill_name : String) (member_data : Option MemberData) (h : 0 ≤ xp) :
    levelWalkFallback xp
      (lv.xp_table.take (effectiveMaxLevel lv skill_name member_data)) 0 = false ∧
    levelWalkFallback xp (lv.catacombs_xp.take 100) 0 = false ∧
    levelWalkFallback xp (lv.catacombs_xp.take 50) 0 = false ∧
    levelWalkFallback xp lv.hotm_brackets 0 = false :=
  ⟨levelWalkFallback_eq_false xp _ 0 h, levelWalkFallback_eq_false xp _ 0 h,
    levelWalkFallback_eq_false xp _ 0 h, levelWalkFallback_eq_false xp _ 0 h⟩

/-- Witness for `division_fallback_unreachable`: a leveling table
containing zero deltas (`[0, 5]`, `[0, 3]`, `[0, 2]`) at `xp = 7` takes no
fallback branch in any of the four walks. -/
theorem division_fallback_unreachable_witness :
    levelWalkFallback 7
      ((⟨[0, 5], fun _ => none, [0, 3], [0, 2], fun _ => none⟩ : LevelingData).xp_table.take
        (effectiveMaxLevel ⟨[0, 5], fun _ => none, [0, 3], [0, 2], fun _ => none⟩ "mining" none))
      0 = false ∧
    levelWalkFallback 7
      ((⟨[0, 5], fun _ => none, [0, 3], [0, 2], fun _ => none⟩ : LevelingData).catacombs_xp.take 100)
      0 = false ∧
    levelWalkFallback 7
      ((⟨[0, 5], fun _ => none, [0, 3], [0, 2], fun _ => none⟩ : LevelingData).catacombs_xp.take 50)
      0 = false ∧
    levelWalkFallback 7
      (⟨[0, 5], fun _ => none, [0, 3], [0, 2], fun _ => none⟩ : LevelingData).hotm_brackets
      0 = false :=
  division_fallback_unreachable ⟨[0, 5], fun _ => none, [0, 3], [0, 2], fun _ => none⟩
    7 "mining" none (by norm_num)

/-- Upper bound: the walk never exceeds the starting level plus the number
of remaining entries (the interpolated progress is `< 1` whenever the
threshold test fails). -/
theorem levelWalk_le (xp : ℚ) (t : List ℚ) (acc : ℚ) (level : ℕ) :
    levelWalk xp t acc level ≤ (level : ℚ) + t.length := by
  induction t generalizing acc level with
  | nil => simp [levelWalk]
  | cons r rest ih =>
    simp only [levelWalk, List.length_cons]
    by_cases hc : acc + r ≤ xp
    · rw [if_pos hc]
      refine (ih (acc + r) (level + 1)).trans ?_
      push_cast
      linarith
    · rw [if_neg hc]
      by_cases hr : 0 < r
      · rw [if_pos hr]
        have hprog : (xp - acc) / r < 1 := by
          rw [div_lt_one hr]
          linarith [not_le.mp hc]
        push_cast
        have hlen : (0 : ℚ) ≤ rest.length := by positivity
        linarith
      · rw [if_neg hr]
        push_cast
        have hlen : (0 : ℚ) ≤ rest.length := by positivity
        linarith

/-- Lower bound: when the XP covers the accumulated sum, the walk returns
at least the starting level (progress is non-negative). -/
theorem levelWalk_ge (xp : ℚ) (t : List ℚ) (acc : ℚ) (level : ℕ) (h : acc ≤ xp) :
    (level : ℚ) ≤ levelWalk xp t acc level := by
  induction t generalizing acc level with
  | nil => simp [levelWalk]
  | cons r rest ih =>
    simp only [levelWalk]
    by_cases hc : acc + r ≤ xp
    · rw [if_pos hc]
      refine le_trans ?_ (ih (acc + r) (level + 1) hc)
      push_cast
      linarith
    · rw [if_neg hc]
      by_cases hr : 0 < r
      · rw [if_pos hr]
        have : 0 ≤ (xp - acc) / r := div_nonneg (by linarith) hr.le
        linarith
      · rw [if_neg hr]

/-- Monotonicity of the threshold walk in the XP argument, for
non-negative delta entries and XP at least the accumulated sum. -/
theorem levelWalk_mono (xp1 xp2 : ℚ) (t : List ℚ) (acc : ℚ) (level : ℕ)
    (hnn : ∀ x ∈ t, 0 ≤ x) (hacc : acc ≤ xp1) (h12 : xp1 ≤ xp2) :
    levelWalk xp1 t acc level ≤ levelWalk xp2 t acc level := by
  induction t generalizing acc level with
  | nil => simp [levelWalk]
  | cons r rest ih =>
    have hr0 : 0 ≤ r := hnn r (List.mem_cons_self r rest)
    have hrest : ∀ x ∈ rest, 0 ≤ x := fun x hx => hnn x (List.mem_cons_of_mem r hx)
    simp only [levelWalk]
    by_cases hc1 : acc + r ≤ xp1
    · rw [if_pos hc1, if_pos (hc1.trans h12)]
      exact ih (acc + r) (level + 1) hrest hc1
    · rw [if_neg hc1]
      have hr : 0 < r := by
        by_contra hrn
        push_neg at hrn
        exact hc1 (by linarith)
      rw [if_pos hr]
      by_cases hc2 : acc + r ≤ xp2
      · rw [if_pos hc2]
        have hiter := levelWalk_ge xp2 rest (acc + r) (level + 1) hc2
        have hprog : (xp1 - acc) / r < 1 := by
          rw [div_lt_one hr]
          linarith [not_le.mp hc1]
        push_cast at hiter ⊢
        linarith
      · rw [if_neg hc2, if_pos hr]
        have hdiv : (xp1 - acc) / r ≤ (xp2 - acc) / r := by
          gcongr
        linarith

/-- Exhaustion: when the XP covers the accumulated sum plus the whole
remaining table (non-negative entries), every threshold test passes and
the walk returns the starting level plus the table length. -/
theorem levelWalk_eq_of_sum_le (xp : ℚ) (t : List ℚ) (acc : ℚ) (level : ℕ)
    (hnn : ∀ x ∈ t, 0 ≤ x) (h : acc + t.sum ≤ xp) :
    levelWalk xp t acc level = (level : ℚ) + t.length := by
  induction t generalizing acc level with
  | nil => simp [levelWalk]
  | cons r rest ih =>
    have hrest : ∀ x ∈ rest, 0 ≤ x := fun x hx => hnn x (List.mem_cons_of_mem r hx)
    have hrs : 0 ≤ rest.sum := List.sum_nonneg hrest
    simp only [levelWalk, List.length_cons, List.sum_cons] at h ⊢
    have hc : acc + r ≤ xp := by linarith
    rw [if_pos hc, ih (acc + r) (level + 1) hrest (by linarith)]
    push_cast
    ring

/-- Strictness: when the XP is short of the accumulated sum plus the
remaining table's total, the walk stays strictly below the starting level
plus the table length. -/
theorem levelWalk_lt_of_lt_sum (xp : ℚ) (t : List ℚ) (acc : ℚ) (level : ℕ)
    (hne : t ≠ []) (h : xp < acc + t.sum) :
    levelWalk xp t acc level < (level : ℚ) + t.length := by
  induction t generalizing acc level with
  | nil => exact absurd rfl hne
  | cons r rest ih =>
    simp only [levelWalk, List.length_cons, List.sum_cons] at h ⊢
    by_cases hc : acc + r ≤ xp
    · rw [if_pos hc]
      have hrestne : rest ≠ [] := by
        rintro rfl
        simp at h
        linarith
      refine (ih (acc + r) (level + 1) hrestne (by linarith)).trans_le ?_
      push_cast
      linarith
    · rw [if_neg hc]
      have hlen : (0 : ℚ) ≤ rest.length := by positivity
      by_cases hr : 0 < r
      · rw [if_pos hr]
        have hprog : (xp - acc) / r < 1 := by
          rw [div_lt_one hr]
          linarith [not_le.mp hc]
        push_cast
        linarith
      · rw [if_neg hr]
        push_cast
        linarith

/-- C5.  For fixed leveling data (with the relevant table non-negative),
fixed skill name, caps and member context, each of
`calculate_skill_level`, `calculate_dungeon_level`, `calculate_class_level`
and `calculate_hotm_level` is monotone in xp on non-negative XP values. -/
theorem level_monotone (lv : LevelingData) (skill_name : String)
    (member_data : Option MemberData) (xp1 xp2 : ℚ) (h1 : 0 ≤ xp1) (h12 : xp1 ≤ xp2) :
    ((∀ x ∈ lv.xp_table, 0 ≤ x) →
      calculate_skill_level lv xp1 skill_name member_data ≤
        calculate_skill_level lv xp2 skill_name member_data) ∧
    ((∀ x ∈ lv.catacombs_xp, 0 ≤ x) →
      calculate_dungeon_level lv xp1 ≤ calculate_dungeon_level lv xp2) ∧
    ((∀ x ∈ lv.catacombs_xp, 0 ≤ x) →
      calculate_class_level lv xp1 ≤ calculate_class_level lv xp2) ∧
    ((∀ x ∈ lv.hotm_brackets, 0 ≤ x) →
      calculate_hotm_level lv xp1 ≤ calculate_hotm_level lv xp2) := by
  refine ⟨fun hnn => ?_, fun hnn => ?_, fun hnn => ?_, fun hnn => ?_⟩
  · simp only [calculate_skill_level]
    by_cases he : lv.xp_table = []
    · rw [if_pos he, if_pos he]
    · rw [if_neg he, if_neg he]
      set eff := effectiveMaxLevel lv skill_name member_data with heff
      set T := lv.xp_table.take eff with hT
      have hTnn : ∀ x ∈ T, 0 ≤ x := fun x hx => hnn x (List.mem_of_mem_take hx)
      by_cases hc1 : T.sum ≤ xp1
      · rw [if_pos hc1, if_pos (hc1.trans h12)]
      · rw [if_neg hc1]
        by_cases hc2 : T.sum ≤ xp2
        · rw [if_pos hc2]
          exact min_le_right _ _
        · rw [if_neg hc2]
          exact min_le_min (levelWalk_mono xp1 xp2 T 0 0 hTnn h1 h12) le_rfl
  · simp only [calculate_dungeon_level]
    by_cases he : lv.catacombs_xp = []
    · rw [if_pos he, if_pos he]
    · rw [if_neg he, if_neg he]
      have hTnn : ∀ x ∈ lv.catacombs_xp.take 100, 0 ≤ x :=
        fun x hx => hnn x (List.mem_of_mem_take hx)
      by_cases hc1 : lv.catacombs_xp.sum ≤ xp1
      · rw [if_pos hc1, if_pos (hc1.trans h12)]
      · rw [if_neg hc1]
        by_cases hc2 : lv.catacombs_xp.sum ≤ xp2
        · rw [if_pos hc2]
          refine (levelWalk_le xp1 _ 0 0).trans ?_
          have hlen : ((lv.catacombs_xp.take 100).length : ℚ) ≤ 100 := by
            exact_mod_cast List.length_take_le 100 lv.catacombs_xp
          push_cast
          linarith
        · rw [if_neg hc2]
          exact levelWalk_mono xp1 xp2 _ 0 0 hTnn h1 h12
  · simp only [calculate_class_level]
    by_cases he : lv.catacombs_xp = []
    · rw [if_pos he, if_pos he]
    · rw [if_neg he, if_neg he]
      have hTnn : ∀ x ∈ lv.catacombs_xp.take 50, 0 ≤ x :=
        fun x hx => hnn x (List.mem_of_mem_take hx)
      by_cases hc1 : (lv.catacombs_xp.take 50).sum ≤ xp1
      · rw [if_pos hc1, if_pos (hc1.trans h12)]
      · rw [if_neg hc1]
        by_cases hc2 : (lv.catacombs_xp.take 50).sum ≤ xp2
        · rw [if_pos hc2]
          refine (levelWalk_le xp1 _ 0 0).trans ?_
          have hlen : ((lv.catacombs_xp.take 50).length : ℚ) ≤ 50 := by
            exact_mod_cast List.length_take_le 50 lv.catacombs_xp
          push_cast
          linarith
        · rw [if_neg hc2]
          exact levelWalk_mono xp1 xp2 _ 0 0 hTnn h1 h12
  · simp only [calculate_hotm_level]
    by_cases he : lv.hotm_brackets = []
    · rw [if_pos he, if_pos he]
    · rw [if_neg he, if_neg he]
      by_cases hc1 : lv.hotm_brackets.sum ≤ xp1
      · rw [if_pos hc1, if_pos (hc1.trans h12)]
      · rw [if_neg hc1]
        by_cases hc2 : lv.hotm_brackets.sum ≤ xp2
        · rw [if_pos hc2]
          refine (levelWalk_le xp1 _ 0 0).trans ?_
          push_cast
          linarith
        · rw [if_neg hc2]
          exact levelWalk_mono xp1 xp2 _ 0 0 hnn h1 h12

/-- Witness for `level_monotone` on a small concrete table at
`xp1 = 1 ≤ xp2 = 2`. -/
theorem level_monotone_witness :
    calculate_skill_level ⟨[100, 200], fun _ => none, [10, 20], [5, 5], fun _ => none⟩
        1 "mining" none ≤
      calculate_skill_level ⟨[100, 200], fun _ => none, [10, 20], [5, 5], fun _ => none⟩
        2 "mining" none ∧
    calculate_dungeon_level ⟨[100, 200], fun _ => none, [10, 20], [5, 5], fun _ => none⟩ 1 ≤
      calculate_dungeon_level ⟨[100, 200], fun _ => none, [10, 20], [5, 5], fun _ => none⟩ 2 ∧
    calculate_class_level ⟨[100, 200], fun _ => none, [10, 20], [5, 5], fun _ => none⟩ 1 ≤
      calculate_class_level ⟨[100, 200], fun _ => none, [10, 20], [5, 5], fun _ => none⟩ 2 ∧
    calculate_hotm_level ⟨[100, 200], fun _ => none, [10, 20], [5, 5], fun _ => none⟩ 1 ≤
      calculate_hotm_level ⟨[100, 200], fun _ => none, [10, 20], [5, 5], fun _ => none⟩ 2 := by
  have h := level_monotone ⟨[100, 200], fun _ => none, [10, 20], [5, 5], fun _ => none⟩
    "mining" none 1 2 (by norm_num) (by norm_num)
  have hx : ∀ x ∈ ([100, 200] : List ℚ), (0 : ℚ) ≤ x := by
    intro x hx
    simp only [List.mem_cons, List.not_mem_nil, or_false] at hx
    rcases hx with rfl | rfl <;> norm_num
  have hc : ∀ x ∈ ([10, 20] : List ℚ), (0 : ℚ) ≤ x := by
    intro x hx
    simp only [List.mem_cons, List.not_mem_nil, or_false] at hx
    rcases hx with rfl | rfl <;> norm_num
  have hb : ∀ x ∈ ([5, 5] : List ℚ), (0 : ℚ) ≤ x := by
    intro x hx
    simp only [List.mem_cons, List.not_mem_nil, or_false] at hx
    rcases hx with rfl | rfl <;> norm_num
  exact ⟨h.1 hx, h.2.1 hc, h.2.2.1 hc, h.2.2.2 hb⟩

/-- C6.  `calculate_skill_level` never exceeds the effective max level
(base cap from `level_caps` or 50; taming `50 + min(sacrificed, 10)`;
farming `50 + farming_level_cap`), for EVERY table and xp (the source
clamps every return path with `min`); `calculate_class_level` never
exceeds 50; and taming with 3 sacrificed pet types has effective max level
53, with 12 sacrificed types 60. -/
theorem level_cap_clamp :
    (∀ (lv : LevelingData) (xp : ℚ) (skill_name : String)
        (member_data : Option MemberData),
      calculate_skill_level lv xp skill_name member_data ≤
        (effectiveMaxLevel lv skill_name member_data : ℚ)) ∧
    (∀ (lv : LevelingData) (xp : ℚ), calculate_class_level lv xp ≤ 50) ∧
    (∀ (lv : LevelingData) (m : MemberData), m.pet_types_sacrificed.length = 3 →
      effectiveMaxLevel lv "taming" (some m) = 53) ∧
    (∀ (lv : LevelingData) (m : MemberData), m.pet_types_sacrificed.length = 12 →
      effectiveMaxLevel lv "taming" (some m) = 60) := by
  refine ⟨fun lv xp skill_name member_data => ?_, fun lv xp => ?_,
    fun lv m hm => ?_, fun lv m hm => ?_⟩
  · simp only [calculate_skill_level]
    by_cases he : lv.xp_table = []
    · rw [if_pos he]
      positivity
    · rw [if_neg he]
      by_cases hc : (lv.xp_table.take (effectiveMaxLevel lv skill_name member_data)).sum ≤ xp
      · rw [if_pos hc]
      · rw [if_neg hc]
        exact min_le_right _ _
  · simp only [calculate_class_level]
    by_cases he : lv.catacombs_xp = []
    · rw [if_pos he]
      norm_num
    · rw [if_neg he]
      by_cases hc : (lv.catacombs_xp.take 50).sum ≤ xp
      · rw [if_pos hc]
        norm_num
      · rw [if_neg hc]
        refine (levelWalk_le xp _ 0 0).trans ?_
        have hlen : ((lv.catacombs_xp.take 50).length : ℚ) ≤ 50 := by
          exact_mod_cast List.length_take_le 50 lv.catacombs_xp
        push_cast
        linarith
  · simp [effectiveMaxLevel, hm]
  · simp [effectiveMaxLevel, hm]

/-- Witness for `level_cap_clamp`: a one-entry table with huge xp stays at
its cap, and concrete 3- and 12-element sacrifice lists give caps 53/60. -/
theorem level_cap_clamp_witness :
    calculate_skill_level ⟨[100], fun _ => none, [], [], fun _ => none⟩ 1000 "mining" none ≤
      (effectiveMaxLevel ⟨[100], fun _ => none, [], [], fun _ => none⟩ "mining" none : ℚ) ∧
    calculate_class_level ⟨[100], fun _ => none, [], [], fun _ => none⟩ 1000 ≤ 50 ∧
    effectiveMaxLevel ⟨[100], fun _ => none, [], [], fun _ => none⟩ "taming"
      (some ⟨["wolf", "cat", "bat"], 0⟩) = 53 ∧
    effectiveMaxLevel ⟨[100], fun _ => none, [], [], fun _ => none⟩ "taming"
      (some ⟨["a", "b", "c", "d", "e", "f", "g", "h", "i", "j", "k", "l"], 0⟩) = 60 :=
  ⟨level_cap_clamp.1 _ 1000 "mining" none, level_cap_clamp.2.1 _ 1000,
    level_cap_clamp.2.2.1 _ _ rfl, level_cap_clamp.2.2.2 _ _ rfl⟩

/-- C7.  For a non-negative catacombs table with at least 100 entries,
`calculate_dungeon_level` (which sums the ENTIRE table for
`total_xp_for_max`) agrees with the variant summing only the first 100
entries, for every xp; and it returns exactly 100 iff
`xp >= sum(catacombs_xp[:100])`.  The whole-table sum never changes the
observable result because when `sum(first 100) <= xp < sum(all)` the walk
passes all 100 thresholds and hits the `i >= max_level` break, returning
`float(level) = 100.0` anyway. -/
theorem dungeon_whole_sum_eq_first100 (lv : LevelingData) (xp : ℚ)
    (hlen : 100 ≤ lv.catacombs_xp.length) (hnn : ∀ x ∈ lv.catacombs_xp, 0 ≤ x) :
    calculate_dungeon_level lv xp = calculate_dungeon_level_first100 lv xp ∧
    (calculate_dungeon_level lv xp = 100 ↔ (lv.catacombs_xp.take 100).sum ≤ xp) := by
  have hne : lv.catacombs_xp ≠ [] := by
    intro h
    rw [h] at hlen
    simp at hlen
  have hS : (lv.catacombs_xp.take 100).sum + (lv.catacombs_xp.drop 100).sum
      = lv.catacombs_xp.sum := by
    rw [← List.sum_append, List.take_append_drop]
  have hdnn : 0 ≤ (lv.catacombs_xp.drop 100).sum :=
    List.sum_nonneg (fun x hx => hnn x (List.mem_of_mem_drop hx))
  have hTlen : (lv.catacombs_xp.take 100).length = 100 := by
    rw [List.length_take]
    omega
  have hTnn : ∀ x ∈ lv.catacombs_xp.take 100, 0 ≤ x :=
    fun x hx => hnn x (List.mem_of_mem_take hx)
  have hTne : lv.catacombs_xp.take 100 ≠ [] := by
    intro hemp
    rw [hemp] at hTlen
    simp at hTlen
  constructor
  · simp only [calculate_dungeon_level, calculate_dungeon_level_first100]
    rw [if_neg hne, if_neg hne]
    by_cases hc1 : lv.catacombs_xp.sum ≤ xp
    · rw [if_pos hc1, if_pos (by linarith)]
    · rw [if_neg hc1]
      by_cases hc2 : (lv.catacombs_xp.take 100).sum ≤ xp
      · rw [if_pos hc2, levelWalk_eq_of_sum_le xp _ 0 0 hTnn (by linarith), hTlen]
        norm_num
      · rw [if_neg hc2]
  · constructor
    · intro h100
      by_contra hlt
      push_neg at hlt
      have hx2 : ¬ lv.catacombs_xp.sum ≤ xp := by linarith
      have hwalk : calculate_dungeon_level lv xp < 100 := by
        simp only [calculate_dungeon_level]
        rw [if_neg hne, if_neg hx2]
        have h := levelWalk_lt_of_lt_sum xp (lv.catacombs_xp.take 100) 0 0 hTne
          (by linarith)
        rw [hTlen] at h
        push_cast at h
        linarith
      rw [h100] at hwalk
      exact absurd hwalk (lt_irrefl _)
    · intro hc2
      simp only [calculate_dungeon_level]
      rw [if_neg hne]
      by_cases hc1 : lv.catacombs_xp.sum ≤ xp
      · rw [if_pos hc1]
        norm_num
      · rw [if_neg hc1, levelWalk_eq_of_sum_le xp _ 0 0 hTnn (by linarith), hTlen]
        norm_num

/-- Witness for `dungeon_whole_sum_eq_first100` on a 101-entry table
(100 ones followed by a 5) at `xp = 42`. -/
theorem dungeon_whole_sum_eq_first100_witness :
    calculate_dungeon_level
        ⟨[], fun _ => none, List.replicate 100 (1 : ℚ) ++ [5], [], fun _ => none⟩ 42 =
      calculate_dungeon_level_first100
        ⟨[], fun _ => none, List.replicate 100 (1 : ℚ) ++ [5], [], fun _ => none⟩ 42 := by
  have h := dungeon_whole_sum_eq_first100
    ⟨[], fun _ => none, List.replicate 100 (1 : ℚ) ++ [5], [], fun _ => none⟩ 42
    (by simp) ?hnn
  case hnn =>
    intro x hx
    rcases List.mem_append.mp hx with hx | hx
    · rw [List.eq_of_mem_replicate hx]
      norm_num
    · simp only [List.mem_cons, List.not_mem_nil, or_false] at hx
      rw [hx]
      norm_num
  exact h.1

/-- One generator step keeps a positive slope positive (it is either kept
or doubled). -/
theorem genNext_slope_pos (s : GenState) (h : 0 < s.slope) : 0 < (genNext s).slope := by
  simp only [genNext]
  by_cases hl : (s.level + 1) % 10 = 0
  · rw [if_pos hl]
    linarith
  · rw [if_neg hl]
    exact h

/-- C9 (counterexample).  The table `[100, 100]` is non-negative with two
entries, yet the overflow sequence does NOT strictly increase beyond the
table: `slope = (100 - 100) * 2 = 0`, so term 3 equals term 2 (both 100)
and every delta beyond the table is zero. -/
theorem xp_generator_flat_cx :
    xpSeq [100, 100] 2 = some 100 ∧ xpSeq [100, 100] 3 = some 100 ∧
    xpSeq [100, 100] 3 = xpSeq [100, 100] 2 := by
  refine ⟨?_, ?_, ?_⟩ <;> norm_num [xpSeq, genStart, genNext, List.getD]

/-- C9 (amended).  For every table with at least two entries: term 0 of
`xp_generator`'s sequence is the literal 0; terms `1..len` are the table
entries verbatim; term `len + 1` is `last + (last - second_last) * 2`; the
terms beyond the table follow the `GenState` orbit, where each step adds
the current slope to the XP and doubles the slope when the incremented
level is a multiple of 10; and — provided `second_last < last` (rather
than mere non-negativity, which the counterexample `[100, 100]` refutes) —
the sequence strictly increases beyond the table (every delta, the
positive slope, is `> 0`). -/
theorem xp_generator_sequence (t : List ℚ) (h2 : 2 ≤ t.length) :
    xpSeq t 0 = some 0 ∧
    (∀ i, ∀ hi : i < t.length, xpSeq t (i + 1) = some (t.get ⟨i, hi⟩)) ∧
    xpSeq t (t.length + 1) =
      some (t.getD (t.length - 1) 0 +
        (t.getD (t.length - 1) 0 - t.getD (t.length - 2) 0) * 2) ∧
    (∀ k, xpSeq t (t.length + 1 + k) = some ((genNext^[k] (genStart t)).xp)) ∧
    (∀ k, (genNext^[k + 1] (genStart t)).xp =
      (genNext^[k] (genStart t)).xp + (genNext^[k] (genStart t)).slope) ∧
    (∀ k, (genNext^[k + 1] (genStart t)).slope =
      if ((genNext^[k] (genStart t)).level + 1) % 10 = 0
      then (genNext^[k] (genStart t)).slope * 2
      else (genNext^[k] (genStart t)).slope) ∧
    (t.getD (t.length - 2) 0 < t.getD (t.length - 1) 0 →
      t.getD (t.length - 1) 0 < (genStart t).xp ∧
      ∀ k, (genNext^[k] (genStart t)).xp < (genNext^[k + 1] (genStart t)).xp) := by
  refine ⟨rfl, fun i hi => ?_, ?_, fun k => ?_, fun k => ?_, fun k => ?_, fun hlt => ?_⟩
  · simp only [xpSeq]
    rw [dif_pos hi]
  · simp only [xpSeq]
    rw [dif_neg (lt_irrefl _), if_neg (by omega), Nat.sub_self]
    rfl
  · have hn : t.length + 1 + k = (t.length + k) + 1 := by omega
    rw [hn]
    simp only [xpSeq]
    rw [dif_neg (by omega), if_neg (by omega)]
    have hk : t.length + k - t.length = k := by omega
    rw [hk]
  · rw [Function.iterate_succ_apply']
    rfl
  · rw [Function.iterate_succ_apply']
    rfl
  · have hslope : ∀ k, 0 < (genNext^[k] (genStart t)).slope := by
      intro k
      induction k with
      | zero =>
        simp only [Function.iterate_zero, id_eq, genStart]
        linarith
      | succ j ih =>
        rw [Function.iterate_succ_apply']
        exact genNext_slope_pos _ ih
    constructor
    · simp only [genStart]
      linarith
    · intro k
      have hx : (genNext^[k + 1] (genStart t)).xp =
          (genNext^[k] (genStart t)).xp + (genNext^[k] (genStart t)).slope := by
        rw [Function.iterate_succ_apply']
        rfl
      rw [hx]
      linarith [hslope k]

/-- Witness for `xp_generator_sequence` on `[100, 300]`: term 0 is 0,
term 3 is `300 + (300 - 100) * 2 = 700`, and the first overflow step
strictly increases. -/
theorem xp_generator_sequence_witness :
    xpSeq [100, 300] 0 = some 0 ∧
    xpSeq [100, 300] (([100, 300] : List ℚ).length + 1) =
      some (([100, 300] : List ℚ).getD (([100, 300] : List ℚ).length - 1) 0 +
        (([100, 300] : List ℚ).getD (([100, 300] : List ℚ).length - 1) 0 -
          ([100, 300] : List ℚ).getD (([100, 300] : List ℚ).length - 2) 0) * 2) ∧
    (genNext^[0] (genStart [100, 300])).xp < (genNext^[0 + 1] (genStart [100, 300])).xp := by
  have h := xp_generator_sequence [100, 300] (by norm_num)
  refine ⟨h.1, h.2.2.1, (h.2.2.2.2.2.2 ?_).2 0⟩
  norm_num [List.getD]
